import Mathlib

/-!
# Verification of the `img_2_base_64` batch conversion utility

Shallow embedding of the two Python pipelines of the repository:

* `img_to_base64_converter.py` — the destructive flow (variant A): validate
  each discovered image, check disk space, Base64-encode it, write a sibling
  (or relocated) `.txt` file and delete the original.
* `scripts/img_2_base_64/img_to_base64.py` — the aggregating flow
  (variant B): walk a directory, Base64-encode every file with a supported
  extension and emit one Dart map literal keyed by relative path.

File bytes are modelled as `List Nat` (each `< 256`), paths as lists of
components, and the effectful parts of the run loop as pure functions of an
explicit per-item environment recording what the filesystem would answer at
each call site.
-/

namespace Img2B64

/-! ## Base64 encoder (from `base64.b64encode` as used by `convert_to_base64`)
and a standard Base64 decoder used to state the round-trip property. -/

/-- The standard Base64 alphabet, in index order. -/
def b64chars : List Char :=
  "ABCDEFGHIJKLMNOPQRSTUVWXYZabcdefghijklmnopqrstuvwxyz0123456789+/".toList

/-- Character for a sextet value (values ≥ 64 never occur on encode). -/
def b64charOf (n : Nat) : Char := b64chars.getD n '='

/-- Standard padded Base64 of a byte list, grouping bytes three at a time,
exactly as `base64.b64encode` produces (no line wrapping). -/
def b64encode : List Nat → List Char
  | [] => []
  | [a] =>
      [b64charOf (a / 4), b64charOf (a % 4 * 16), '=', '=']
  | [a, b] =>
      [b64charOf (a / 4), b64charOf (a % 4 * 16 + b / 16), b64charOf (b % 16 * 4), '=']
  | a :: b :: c :: rest =>
      b64charOf (a / 4) :: b64charOf (a % 4 * 16 + b / 16) ::
      b64charOf (b % 16 * 4 + c / 64) :: b64charOf (c % 64) :: b64encode rest

/-- Index of a character in a list, accumulating from `i`. -/
def idxFrom : List Char → Char → Nat → Option Nat
  | [], _, _ => none
  | x :: xs, c, i => if x = c then some i else idxFrom xs c (i + 1)

/-- Sextet value of a Base64 alphabet character; `none` for anything else. -/
def b64charVal (c : Char) : Option Nat := idxFrom b64chars c 0

/-- Standard Base64 decoder: consumes four characters at a time, accepting
`=` padding only as the final one or two characters. -/
def b64decode : List Char → Option (List Nat)
  | [] => some []
  | c1 :: c2 :: c3 :: c4 :: rest =>
    match b64charVal c1, b64charVal c2 with
    | some v1, some v2 =>
      if c3 = '=' ∧ c4 = '=' ∧ rest = [] then
        some [v1 * 4 + v2 / 16]
      else
        match b64charVal c3 with
        | some v3 =>
          if c4 = '=' ∧ rest = [] then
            some [v1 * 4 + v2 / 16, v2 % 16 * 16 + v3 / 4]
          else
            match b64charVal c4, b64decode rest with
            | some v4, some bs =>
                some ((v1 * 4 + v2 / 16) :: (v2 % 16 * 16 + v3 / 4) ::
                      (v3 % 4 * 64 + v4) :: bs)
            | _, _ => none
        | none => none
    | _, _ => none
  | _ => none

theorem b64charVal_charOf : ∀ n, n < 64 → b64charVal (b64charOf n) = some n := by decide

theorem b64charOf_ne_pad : ∀ n, n < 64 → b64charOf n ≠ '=' := by decide

theorem b64decode_b64encode (bs : List Nat) (h : ∀ b ∈ bs, b < 256) :
    b64decode (b64encode bs) = some bs := by
  induction bs using b64encode.induct with
  | case1 => rfl
  | case2 a =>
    have ha : a < 256 := h a (by simp)
    have h1 : a / 4 < 64 := by omega
    have h2 : a % 4 * 16 < 64 := by omega
    simp only [b64encode, b64decode, b64charVal_charOf _ h1, b64charVal_charOf _ h2]
    simp only [and_self, if_true, Option.some.injEq, List.cons.injEq, and_true]
    omega
  | case3 a b =>
    have ha : a < 256 := h a (by simp)
    have hb : b < 256 := h b (by simp)
    have h1 : a / 4 < 64 := by omega
    have h2 : a % 4 * 16 + b / 16 < 64 := by omega
    have h3 : b % 16 * 4 < 64 := by omega
    simp only [b64encode, b64decode, b64charVal_charOf _ h1, b64charVal_charOf _ h2,
      b64charVal_charOf _ h3]
    rw [if_neg (by simp [b64charOf_ne_pad _ h3])]
    simp only [and_self, if_true, Option.some.injEq, List.cons.injEq, and_true]
    omega
  | case4 a b c rest ih =>
    have ha : a < 256 := h a (by simp)
    have hb : b < 256 := h b (by simp)
    have hc : c < 256 := h c (by simp)
    have h1 : a / 4 < 64 := by omega
    have h2 : a % 4 * 16 + b / 16 < 64 := by omega
    have h3 : b % 16 * 4 + c / 64 < 64 := by omega
    have h4 : c % 64 < 64 := by omega
    have ih' := ih (fun x hx => h x (by simp [hx]))
    simp only [b64encode, b64decode, b64charVal_charOf _ h1, b64charVal_charOf _ h2,
      b64charVal_charOf _ h3, b64charVal_charOf _ h4]
    rw [if_neg (by simp [b64charOf_ne_pad _ h3])]
    rw [if_neg (by simp [b64charOf_ne_pad _ h4])]
    rw [ih']
    simp only [Option.some.injEq, List.cons.injEq, and_true]
    omega

/-! ## Path model

Paths are lists of components. `dirnameC`, `relpathC` and the `splitext`
stem mirror `os.path.dirname`, `os.path.relpath` and `os.path.splitext`
on normalized paths; `pathSuffix` mirrors `pathlib.Path(...).suffix`. -/

abbrev PathC := List String

/-- `os.path.dirname`: drop the final component. -/
def dirnameC (p : PathC) : PathC := p.dropLast

/-- `os.path.relpath p start` for normalized paths: strip the common prefix,
then one `..` per remaining component of `start`. -/
def relpathC : PathC → PathC → PathC
  | p, [] => p
  | [], _ :: ss => List.replicate (ss.length + 1) ".."
  | a :: as, s :: ss =>
      if a = s then relpathC as ss
      else List.replicate (ss.length + 1) ".." ++ a :: as

/-- Index of the last `'.'` in a character list, if any. -/
def lastDotIdx : List Char → Option Nat
  | [] => none
  | c :: cs =>
    match lastDotIdx cs with
    | some i => some (i + 1)
    | none => if c = '.' then some 0 else none

/-- `os.path.splitext(name)[0]` for a single path component: cut at the last
dot unless every character before it is itself a dot. -/
def stemOf (name : String) : String :=
  match lastDotIdx name.toList with
  | none => name
  | some i =>
      if (name.toList.take i).all (fun c => c = '.') then name
      else ⟨name.toList.take i⟩

/-- `pathlib.Path(name).suffix`: the final extension with its dot; empty when
the last dot is leading or trailing, or there is no dot. -/
def pathSuffix (name : String) : String :=
  match lastDotIdx name.toList with
  | none => ""
  | some i =>
      if 0 < i ∧ i + 1 < name.toList.length then ⟨name.toList.drop i⟩ else ""

/-- ASCII lowering of one character (what `.lower()` does on the ASCII
extensions involved here). -/
def lowerChar (c : Char) : Char :=
  if 'A' ≤ c ∧ c ≤ 'Z' then Char.ofNat (c.toNat + 32) else c

/-- ASCII lowering of a string. -/
def lowerStr (s : String) : String := ⟨s.toList.map lowerChar⟩

/-! ## Variant A: `img_to_base64_converter.py` -/

/-- `SUPPORTED_FORMATS` of the destructive flow. -/
def SUPPORTED_FORMATS : List String :=
  [".jpg", ".jpeg", ".png", ".gif", ".bmp", ".webp", ".tiff", ".tif", ".ico"]

/-- Outcome of the `imghdr.what` call inside `is_valid_image`: it either
returned (`ok`, possibly `none` for an unrecognized file) or raised. -/
inductive SniffResult
  | ok : Option String → SniffResult
  | err : SniffResult
deriving DecidableEq

/-- `is_valid_image`: extension must be supported, then the content sniff
must recognize an image type; a raised exception yields `false`. -/
def is_valid_image (name : String) (sniff : SniffResult) : Bool :=
  if lowerStr (pathSuffix name) ∈ SUPPORTED_FORMATS then
    match sniff with
    | .ok (some _) => true
    | .ok none => false
    | .err => false
  else false

/-- `convert_to_base64` of variant A: `None` on a read error, otherwise the
Base64 text of the bytes read. -/
def convert_to_base64 (r : Option (List Nat)) : Option String :=
  match r with
  | some bs => some ⟨b64encode bs⟩
  | none => none

/-- What the filesystem answers at each call site while `process_images`
handles one item. -/
structure ItemEnv where
  validImage : Bool
  freeSpace : Nat
  fileSize : Nat
  readResult : Option (List Nat)
  writeOk : Bool
  deleteOk : Bool
deriving DecidableEq

/-- How one iteration of the `process_images` loop ends. -/
inductive ItemOutcome
  | skippedInvalid
  | skippedSpace
  | skippedRead
  | fullSuccess
  | savedButNotDeleted
  | writeFailed
deriving DecidableEq

/-- Events of one iteration: whether the text file was durably written,
whether a deletion was attempted / succeeded, and the failure-count delta. -/
structure ItemResult where
  outcome : ItemOutcome
  wrote : Bool
  deleteAttempted : Bool
  deleted : Bool
  failedInc : Nat
deriving DecidableEq

/-- One iteration of the `process_images` loop (lines 232–275): validate,
check free space against twice the file size, encode, write, then delete. -/
def processItem (env : ItemEnv) : ItemResult :=
  if env.validImage = false then ⟨.skippedInvalid, false, false, false, 1⟩
  else if env.freeSpace < env.fileSize * 2 then ⟨.skippedSpace, false, false, false, 1⟩
  else
    match convert_to_base64 env.readResult with
    | none => ⟨.skippedRead, false, false, false, 1⟩
    | some _ =>
      if env.writeOk then
        if env.deleteOk then ⟨.fullSuccess, true, true, true, 0⟩
        else ⟨.savedButNotDeleted, true, true, false, 1⟩
      else ⟨.writeFailed, false, false, false, 1⟩

/-- The whole `process_images` loop over its item environments. -/
def processAll (envs : List ItemEnv) : List ItemResult := envs.map processItem

/-- `failed_files` at the end of `process_images`. -/
def totalFailed (envs : List ItemEnv) : Nat :=
  (processAll envs).foldl (fun acc r => acc + r.failedInc) 0

/-- Replace the extension of the final component by `.txt`
(`os.path.splitext(...)[0] + '.txt'`). -/
def replaceExtTxt (p : PathC) : PathC :=
  p.dropLast ++ [stemOf (p.getLastD "") ++ ".txt"]

/-- Output path computation of `process_images` (lines 257–264): with an
output directory, join it with `relpath(file_path, dirname(file_path))`
stripped of its extension plus `.txt`; otherwise replace the extension
in place. -/
def output_path (output_dir : Option PathC) (file_path : PathC) : PathC :=
  match output_dir with
  | some od => od ++ replaceExtTxt (relpathC file_path (dirnameC file_path))
  | none => replaceExtTxt file_path

/-- The output path as §4.4 of the spec words it: under the output root,
the image's path relative to the scanned directory is preserved, with the
extension replaced. -/
def output_path_spec (od : PathC) (scanRoot : PathC) (file_path : PathC) : PathC :=
  od ++ replaceExtTxt (relpathC file_path scanRoot)

/-- The per-item progress estimate (lines 277–288): only when
`processed_files > 1` does the loop compute
`avg_time_per_file * remaining_files`. -/
def estimated_time (elapsed : ℚ) (processed total : Nat) : Option ℚ :=
  if 1 < processed then some (elapsed / processed * ((total - processed : Nat) : ℚ))
  else none

/-- The same estimate gated as both the spec and the source's own inline
comment describe it: available once at least one item has completed. -/
def estimated_time_spec (elapsed : ℚ) (processed total : Nat) : Option ℚ :=
  if 1 ≤ processed then some (elapsed / processed * ((total - processed : Nat) : ℚ))
  else none

/-- What the environment answers during `main` of variant A. -/
structure MainEnv where
  dirExists : Bool
  outputDirGiven : Bool
  outputDirExists : Bool
  makedirsOk : Bool
  items : List ItemEnv
deriving DecidableEq

/-- Exit code of `main` (lines 293–336): 1 on a missing directory or a
failed output-directory creation, 0 when no images were found, else 0
exactly when no item failed. -/
def mainExit (env : MainEnv) : Nat :=
  if env.dirExists = false then 1
  else if env.outputDirGiven = true ∧ env.outputDirExists = false ∧ env.makedirsOk = false then 1
  else if env.items.isEmpty then 0
  else if totalFailed env.items = 0 then 0 else 1

/-! ## Variant B: `scripts/img_2_base_64/img_to_base64.py` -/

/-- `SUPPORTED_FORMATS` of the aggregating flow. -/
def SUPPORTED_FORMATS_B : List String :=
  [".jpg", ".jpeg", ".png", ".gif", ".bmp", ".webp"]

/-- A file seen by `os.walk`, by its path components relative to the scanned
root; `content = none` models a read failure. -/
structure BFile where
  rel : List String
  content : Option (List Nat)
deriving DecidableEq

/-- The file's name (final path component). -/
def fname (f : BFile) : String := f.rel.getLastD ""

/-- `is_image_file`: suffix check against the variant-B format set. -/
def is_image_file (name : String) : Bool :=
  lowerStr (pathSuffix name) ∈ SUPPORTED_FORMATS_B

/-- `convert_to_base64` of variant B: the empty string doubles as the
read-error sentinel. -/
def convert_to_base64_b (r : Option (List Nat)) : String :=
  match r with
  | some bs => ⟨b64encode bs⟩
  | none => ""

/-- Relative path normalized to forward slashes. -/
def joinSlash (p : List String) : String := String.intercalate "/" p

/-- Python-dict insertion: overwrite in place if the key exists, else
append. -/
def dinsert (d : List (String × String)) (k v : String) : List (String × String) :=
  if d.any (fun p => p.1 = k) then d.map (fun p => if p.1 = k then (k, v) else p)
  else d ++ [(k, v)]

/-- One `os.walk` entry inside `scan_directory`: non-images are ignored;
images bump `processed_files` and are inserted only when their encoding is
non-empty. -/
def scanStep (acc : List (String × String) × Nat) (f : BFile) :
    List (String × String) × Nat :=
  if is_image_file (fname f) then
    (if convert_to_base64_b f.content = "" then acc.1
     else dinsert acc.1 (joinSlash f.rel) (convert_to_base64_b f.content),
     acc.2 + 1)
  else acc

/-- `scan_directory`: the accumulated dict and the final `processed_files`. -/
def scan_directory (fs : List BFile) : List (String × String) × Nat :=
  fs.foldl scanStep ([], 0)

/-- The keys of an association list, in order. -/
def dictKeys (d : List (String × String)) : List String := d.map Prod.fst

/-- Code-point lexicographic order on character lists — Python's `sorted`
on strings. -/
def lexLe (a b : List Char) : Bool :=
  match a, b with
  | [], _ => true
  | _ :: _, [] => false
  | x :: xs, y :: ys =>
      if x.toNat < y.toNat then true
      else if y.toNat < x.toNat then false
      else lexLe xs ys

/-- Code-point lexicographic order on strings. -/
def strLe (a b : String) : Bool := lexLe a.toList b.toList

/-- `strLe` as a relation, for sortedness statements. -/
def strLeR (a b : String) : Prop := strLe a b = true

instance : DecidableRel strLeR := fun a b => instDecidableEqBool (strLe a b) true

/-- The key sequence `generate_dart_file` writes: `sorted(base64_dict.keys())`
— modelled by sorting the dict's keys by code-point order. -/
def generate_dart_keys (fs : List BFile) : List String :=
  (dictKeys (scan_directory fs).1).insertionSort strLeR

/-! ## Helper lemmas -/

theorem lexLe_total (a : List Char) : ∀ b, lexLe a b = true ∨ lexLe b a = true := by
  induction a with
  | nil => intro b; left; rfl
  | cons x xs ih =>
    intro b
    cases b with
    | nil => right; rfl
    | cons y ys =>
      simp only [lexLe]
      by_cases h1 : x.toNat < y.toNat
      · left; simp [h1]
      · by_cases h2 : y.toNat < x.toNat
        · right; simp [h1, h2]
        · rcases ih ys with h | h <;> simp [h1, h2, h]

theorem lexLe_trans (a : List Char) :
    ∀ b c, lexLe a b = true → lexLe b c = true → lexLe a c = true := by
  induction a with
  | nil => intro b c _ _; rfl
  | cons x xs ih =>
    intro b c hab hbc
    cases b with
    | nil => simp [lexLe] at hab
    | cons y ys =>
      cases c with
      | nil => simp [lexLe] at hbc
      | cons z zs =>
        simp only [lexLe] at hab hbc ⊢
        by_cases h1 : x.toNat < y.toNat <;> by_cases h2 : y.toNat < x.toNat <;>
          by_cases h3 : y.toNat < z.toNat <;> by_cases h4 : z.toNat < y.toNat <;>
            by_cases h5 : x.toNat < z.toNat <;> by_cases h6 : z.toNat < x.toNat <;>
              simp [h1, h2, h3, h4, h5, h6] at hab hbc ⊢ <;>
                first
                | omega
                | exact ih ys zs hab hbc

instance : IsTotal String strLeR := ⟨fun a b => lexLe_total a.toList b.toList⟩

instance : IsTrans String strLeR :=
  ⟨fun a b c hab hbc => lexLe_trans a.toList b.toList c.toList hab hbc⟩

theorem dictKeys_map_keep (d : List (String × String)) (k v : String) :
    dictKeys (d.map (fun p => if p.1 = k then (k, v) else p)) = dictKeys d := by
  simp only [dictKeys, List.map_map]
  apply List.map_congr_left
  intro p _
  by_cases h : p.1 = k <;> simp [h]

theorem mem_dictKeys_dinsert {d : List (String × String)} {k v k' : String} :
    k' ∈ dictKeys (dinsert d k v) ↔ k' = k ∨ k' ∈ dictKeys d := by
  unfold dinsert
  by_cases h : d.any (fun p => p.1 = k)
  · rw [if_pos h, dictKeys_map_keep]
    have hk : k ∈ dictKeys d := by
      simp only [List.any_eq_true, decide_eq_true_eq] at h
      obtain ⟨p, hp, hpk⟩ := h
      exact List.mem_map.mpr ⟨p, hp, hpk⟩
    constructor
    · exact Or.inr
    · rintro (rfl | hm)
      · exact hk
      · exact hm
  · rw [if_neg h]
    simp [dictKeys, or_comm]

theorem nodup_dictKeys_dinsert {d : List (String × String)} {k v : String}
    (h : (dictKeys d).Nodup) : (dictKeys (dinsert d k v)).Nodup := by
  unfold dinsert
  by_cases ha : d.any (fun p => p.1 = k)
  · rw [if_pos ha, dictKeys_map_keep]; exact h
  · rw [if_neg ha]
    have hk : k ∉ dictKeys d := by
      simp only [List.any_eq_true, decide_eq_true_eq] at ha
      simp only [dictKeys, List.mem_map, not_exists]
      rintro ⟨p1, p2⟩ ⟨hp, rfl⟩
      exact ha ⟨(p1, p2), hp, rfl⟩
    simp only [dictKeys] at h hk
    simp [dictKeys, List.nodup_append, h]
    intro x hx
    exact hk (List.mem_map.mpr ⟨(k, x), hx, rfl⟩)

theorem mem_dictKeys_scan (fs : List BFile) :
    ∀ (acc : List (String × String) × Nat) (k : String),
      (k ∈ dictKeys (fs.foldl scanStep acc).1 ↔
        k ∈ dictKeys acc.1 ∨ ∃ f ∈ fs, is_image_file (fname f) = true ∧
          convert_to_base64_b f.content ≠ "" ∧ joinSlash f.rel = k) := by
  induction fs with
  | nil => intro acc k; simp
  | cons f fs ih =>
    intro acc k
    rw [List.foldl_cons, ih]
    by_cases hi : is_image_file (fname f) = true
    · by_cases he : convert_to_base64_b f.content = ""
      · have hstep : (scanStep acc f).1 = acc.1 := by simp [scanStep, hi, he]
        rw [hstep]
        constructor
        · rintro (hm | ⟨g, hg, hp⟩)
          · exact Or.inl hm
          · exact Or.inr ⟨g, List.mem_cons_of_mem f hg, hp⟩
        · rintro (hm | ⟨g, hg, hp⟩)
          · exact Or.inl hm
          · rcases List.mem_cons.mp hg with rfl | hg'
            · exact absurd he hp.2.1
            · exact Or.inr ⟨g, hg', hp⟩
      · have hstep : (scanStep acc f).1 =
            dinsert acc.1 (joinSlash f.rel) (convert_to_base64_b f.content) := by
          simp [scanStep, hi, he]
        rw [hstep, mem_dictKeys_dinsert]
        constructor
        · rintro ((rfl | hm) | ⟨g, hg, hp⟩)
          · exact Or.inr ⟨f, List.mem_cons_self f fs, hi, he, rfl⟩
          · exact Or.inl hm
          · exact Or.inr ⟨g, List.mem_cons_of_mem f hg, hp⟩
        · rintro (hm | ⟨g, hg, hp⟩)
          · exact Or.inl (Or.inr hm)
          · rcases List.mem_cons.mp hg with rfl | hg'
            · exact Or.inl (Or.inl hp.2.2.symm)
            · exact Or.inr ⟨g, hg', hp⟩
    · have hstep : scanStep acc f = acc := by simp [scanStep, hi]
      rw [hstep]
      constructor
      · rintro (hm | ⟨g, hg, hp⟩)
        · exact Or.inl hm
        · exact Or.inr ⟨g, List.mem_cons_of_mem f hg, hp⟩
      · rintro (hm | ⟨g, hg, hp⟩)
        · exact Or.inl hm
        · rcases List.mem_cons.mp hg with rfl | hg'
          · exact absurd hp.1 hi
          · exact Or.inr ⟨g, hg', hp⟩

theorem nodup_dictKeys_scan (fs : List BFile) :
    ∀ (acc : List (String × String) × Nat), (dictKeys acc.1).Nodup →
      (dictKeys (fs.foldl scanStep acc).1).Nodup := by
  induction fs with
  | nil => intro acc h; simpa using h
  | cons f fs ih =>
    intro acc h
    rw [List.foldl_cons]
    apply ih
    by_cases hi : is_image_file (fname f) = true
    · by_cases he : convert_to_base64_b f.content = ""
      · have hstep : (scanStep acc f).1 = acc.1 := by simp [scanStep, hi, he]
        rw [hstep]; exact h
      · have hstep : (scanStep acc f).1 =
            dinsert acc.1 (joinSlash f.rel) (convert_to_base64_b f.content) := by
          simp [scanStep, hi, he]
        rw [hstep]
        exact nodup_dictKeys_dinsert h
    · have hstep : scanStep acc f = acc := by simp [scanStep, hi]
      rw [hstep]; exact h

theorem relpathC_dirname (p : PathC) (h : p ≠ []) :
    relpathC p (dirnameC p) = [p.getLastD ""] := by
  induction p with
  | nil => exact absurd rfl h
  | cons a as ih =>
    cases as with
    | nil => rfl
    | cons b bs =>
      have hrec := ih (by simp)
      show relpathC (a :: b :: bs) (a :: (b :: bs).dropLast) = _
      simp only [relpathC, if_pos rfl]
      simpa [dirnameC] using hrec

theorem processItem_wrote_of_attempt (env : ItemEnv)
    (hd : (processItem env).deleteAttempted = true ∨ (processItem env).deleted = true) :
    (processItem env).wrote = true := by
  rcases env with ⟨vi, fsp, sz, rr, wo, dl⟩
  cases rr <;> cases vi <;> cases wo <;> cases dl <;>
    simp only [processItem, convert_to_base64] at hd ⊢ <;>
      split_ifs at hd ⊢ <;> simp_all

/-! ## Claim theorems -/

/-- C1: in the destructive flow, an original is deleted only after its
Base64 text file was successfully written — for every item of a run, if a
deletion was attempted (in particular if it succeeded), the write had
succeeded; a failed or skipped write never leads to a delete, so no state
with a deleted original and no text file can arise. -/
theorem run_delete_only_after_write (envs : List ItemEnv) (r : ItemResult)
    (hr : r ∈ processAll envs)
    (hd : r.deleteAttempted = true ∨ r.deleted = true) : r.wrote = true := by
  obtain ⟨env, _, rfl⟩ := List.mem_map.mp hr
  exact processItem_wrote_of_attempt env hd

theorem run_delete_only_after_write_witness :
    (processItem ⟨true, 100, 10, some [1], true, true⟩).wrote = true :=
  run_delete_only_after_write [⟨true, 100, 10, some [1], true, true⟩]
    (processItem ⟨true, 100, 10, some [1], true, true⟩)
    (List.mem_map.mpr ⟨⟨true, 100, 10, some [1], true, true⟩, List.mem_singleton.mpr rfl, rfl⟩)
    (Or.inl (by decide))

/-- C2: the encoder turns the bytes read from a file into standard padded
Base64 text, and decoding that output reproduces the original bytes
exactly (in both variants the encoder is `base64.b64encode`). -/
theorem convert_to_base64_roundtrip (bs : List Nat) (h : ∀ b ∈ bs, b < 256) :
    convert_to_base64 (some bs) = some ⟨b64encode bs⟩ ∧
    convert_to_base64_b (some bs) = (⟨b64encode bs⟩ : String) ∧
    b64decode (b64encode bs) = some bs :=
  ⟨rfl, rfl, b64decode_b64encode bs h⟩

theorem convert_to_base64_roundtrip_witness :
    (∀ b ∈ [77, 97, 110], b < 256) ∧ b64decode (b64encode [77, 97, 110]) = some [77, 97, 110] :=
  ⟨by decide, (convert_to_base64_roundtrip [77, 97, 110] (by decide)).2.2⟩

/-- C3 counterexample: scanning `root` with output root `out`, the image
`root/sub/a.png` is written to `out/a.txt`, not to `out/sub/a.txt` as the
claim's structure-preservation would require — `process_images` computes
`relpath(file_path, dirname(file_path))`, which is always the basename. -/
theorem output_path_flattens :
    output_path (some ["out"]) ["root", "sub", "a.png"] = ["out", "a.txt"] ∧
    output_path_spec ["out"] ["root"] ["root", "sub", "a.png"] = ["out", "sub", "a.txt"] ∧
    output_path (some ["out"]) ["root", "sub", "a.png"] ≠
      output_path_spec ["out"] ["root"] ["root", "sub", "a.png"] := by decide

/-- C3 (amended): with a caller-specified output root the output path is
that root joined with just the image's final component with the extension
replaced by `.txt` (any relative directory structure is flattened away);
with no output root the output sits in the source's own directory with the
extension replaced. -/
theorem output_path_eq (od : PathC) (p : PathC) (h : p ≠ []) :
    output_path (some od) p = od ++ [stemOf (p.getLastD "") ++ ".txt"] ∧
    output_path none p = dirnameC p ++ [stemOf (p.getLastD "") ++ ".txt"] := by
  constructor
  · show od ++ replaceExtTxt (relpathC p (dirnameC p)) = _
    rw [relpathC_dirname p h]
    rfl
  · rfl

theorem output_path_eq_witness :
    (["root", "sub", "a.png"] : PathC) ≠ [] ∧
    output_path (some ["out"]) ["root", "sub", "a.png"] = ["out", "a.txt"] ∧
    output_path none ["root", "sub", "a.png"] = ["root", "sub", "a.txt"] := by
  refine ⟨by decide, ?_⟩
  have h := output_path_eq ["out"] ["root", "sub", "a.png"] (by decide)
  have h2 := output_path_eq ["x"] ["root", "sub", "a.png"] (by decide)
  exact ⟨by rw [h.1]; decide, by rw [h2.2]; decide⟩

/-- C4 counterexample: a discovered image whose read fails (or is empty) is
dropped from the map, so the keys are not exactly the discovered images'
relative paths: with a single discovered `a.png` whose read errors, the
emitted key list is empty instead of `["a.png"]`. -/
theorem generate_dart_keys_drops_unreadable :
    is_image_file (fname ⟨["a.png"], none⟩) = true ∧
    joinSlash (["a.png"] : List String) = "a.png" ∧
    generate_dart_keys [⟨["a.png"], none⟩] = [] ∧
    generate_dart_keys [⟨["a.png"], none⟩] ≠ ["a.png"] := by decide

/-- C4 (amended): the emitted map keys are exactly the forward-slash
relative paths of the discovered images whose encoding produced a
non-empty result (reads succeeded on a non-empty file), with no
duplicates, emitted in code-point lexicographically ascending order. -/
theorem generate_dart_keys_sorted_exact (fs : List BFile) :
    List.Sorted strLeR (generate_dart_keys fs) ∧
    (generate_dart_keys fs).Nodup ∧
    (∀ k, k ∈ generate_dart_keys fs ↔
      ∃ f ∈ fs, is_image_file (fname f) = true ∧
        convert_to_base64_b f.content ≠ "" ∧ joinSlash f.rel = k) := by
  refine ⟨List.sorted_insertionSort strLeR _, ?_, ?_⟩
  · exact ((List.perm_insertionSort strLeR _).nodup_iff).mpr
      (nodup_dictKeys_scan fs ([], 0) (by simp [dictKeys]))
  · intro k
    rw [generate_dart_keys, List.mem_insertionSort]
    have h := mem_dictKeys_scan fs ([], 0) k
    rw [scan_directory]
    rw [h]
    simp [dictKeys]

/-- C5: when the free space on the source's volume is below twice the
source file's size, the item is counted as failed and skipped — no text
file is written and no deletion is attempted. -/
theorem low_space_item_fails (env : ItemEnv) (h : env.freeSpace < env.fileSize * 2) :
    (processItem env).failedInc = 1 ∧ (processItem env).wrote = false ∧
    (processItem env).deleteAttempted = false ∧ (processItem env).deleted = false := by
  rcases env with ⟨vi, fsp, sz, rr, wo, dl⟩
  cases vi <;> simp [processItem, h]

theorem low_space_item_fails_witness :
    (0 : Nat) < 1 * 2 ∧
    (processItem ⟨true, 0, 1, some [1], true, true⟩).failedInc = 1 ∧
    (processItem ⟨true, 0, 1, some [1], true, true⟩).wrote = false ∧
    (processItem ⟨true, 0, 1, some [1], true, true⟩).deleteAttempted = false ∧
    (processItem ⟨true, 0, 1, some [1], true, true⟩).deleted = false :=
  ⟨by decide, low_space_item_fails ⟨true, 0, 1, some [1], true, true⟩ (by decide)⟩

/-- C6: `is_valid_image` always yields a boolean (it is a total function
into `Bool`); an exception raised by the content sniff is caught and gives
`false`, and the result is `true` exactly when the extension is supported
and the sniff recognized an image type. -/
theorem is_valid_image_totality (name : String) (s : SniffResult) :
    (s = SniffResult.err → is_valid_image name s = false) ∧
    (is_valid_image name s = true ↔
      (lowerStr (pathSuffix name) ∈ SUPPORTED_FORMATS ∧
        ∃ t, s = SniffResult.ok (some t))) := by
  unfold is_valid_image
  by_cases hm : lowerStr (pathSuffix name) ∈ SUPPORTED_FORMATS
  · cases s with
    | ok o => cases o <;> simp [hm]
    | err => simp [hm]
  · cases s with
    | ok o => cases o <;> simp [hm]
    | err => simp [hm]

theorem is_valid_image_totality_witness :
    is_valid_image "a.png" SniffResult.err = false :=
  (is_valid_image_totality "a.png" SniffResult.err).1 rfl

/-- C7: if the text file is written but the original cannot be deleted, the
item ends as the partial-success outcome, is counted as failed, and the
written text file remains (the model performs no rollback: `wrote` stays
`true` while `deleted` is `false`). -/
theorem write_ok_delete_fail_partial (env : ItemEnv) (bs : List Nat)
    (h1 : env.validImage = true) (h2 : ¬(env.freeSpace < env.fileSize * 2))
    (h3 : env.readResult = some bs) (h4 : env.writeOk = true)
    (h5 : env.deleteOk = false) :
    (processItem env).outcome = ItemOutcome.savedButNotDeleted ∧
    (processItem env).failedInc = 1 ∧
    (processItem env).wrote = true ∧
    (processItem env).deleted = false := by
  rcases env with ⟨vi, fsp, sz, rr, wo, dl⟩
  simp only at h1 h2 h3 h4 h5
  subst h1 h3 h4 h5
  simp [processItem, convert_to_base64, h2]

theorem write_ok_delete_fail_partial_witness :
    (processItem ⟨true, 10, 1, some [1], true, false⟩).outcome =
      ItemOutcome.savedButNotDeleted ∧
    (processItem ⟨true, 10, 1, some [1], true, false⟩).failedInc = 1 ∧
    (processItem ⟨true, 10, 1, some [1], true, false⟩).wrote = true ∧
    (processItem ⟨true, 10, 1, some [1], true, false⟩).deleted = false :=
  write_ok_delete_fail_partial ⟨true, 10, 1, some [1], true, false⟩ [1]
    rfl (by decide) rfl rfl rfl

/-- C8: the loop computes the estimate as `avg_time_per_file *
remaining_files`, but only under `processed_files > 1`; with exactly one
item completed (1 of 2, elapsed 5) the source produces no estimate, while
the gating promised by the spec — and by the source's own inline comment —
would already produce one. With two items completed the formula is as
claimed. -/
theorem estimated_time_gate_mismatch :
    estimated_time 5 1 2 = none ∧
    estimated_time_spec 5 1 2 = some 5 ∧
    estimated_time 6 2 3 = some 3 := by
  refine ⟨rfl, ?_, ?_⟩ <;> norm_num [estimated_time, estimated_time_spec]

/-- C9: `main` of the destructive flow exits 0 exactly when the directory
exists, any requested output directory could be used, and no item failed;
in every other case — a missing directory included — it exits 1, and these
are the only exit codes. -/
theorem mainExit_zero_iff (env : MainEnv) :
    (mainExit env = 0 ↔
      (env.dirExists = true ∧
        (env.outputDirGiven = true → (env.outputDirExists = true ∨ env.makedirsOk = true)) ∧
        totalFailed env.items = 0)) ∧
    (env.dirExists = false → mainExit env = 1) ∧
    (mainExit env = 0 ∨ mainExit env = 1) := by
  rcases env with ⟨de, og, oe, mk, items⟩
  have h0 : totalFailed [] = 0 := rfl
  cases de <;> cases og <;> cases oe <;> cases mk <;>
    rcases Decidable.em (items = []) with hi | hi <;>
      by_cases ht : totalFailed items = 0 <;>
        simp [mainExit, hi, h0, ht, List.isEmpty_iff]

theorem mainExit_zero_iff_witness :
    mainExit ⟨true, false, false, false, []⟩ = 0 :=
  (mainExit_zero_iff ⟨true, false, false, false, []⟩).1.mpr ⟨rfl, by simp, rfl⟩

/-- C10: a zero-byte image encodes to the empty string — the very sentinel
`convert_to_base64` of the aggregating flow returns on a read error — so
the file is counted as processed yet omitted from the output map, exactly
like a failed read. -/
theorem empty_file_dropped (name : String) (r : Option (List Nat))
    (h1 : is_image_file name = true) (h2 : convert_to_base64_b r = "") :
    convert_to_base64_b (some []) = "" ∧
    convert_to_base64_b none = "" ∧
    scan_directory [⟨[name], r⟩] = ([], 1) := by
  refine ⟨rfl, rfl, ?_⟩
  have hn : fname ⟨[name], r⟩ = name := rfl
  simp [scan_directory, scanStep, hn, h1, h2]

theorem empty_file_dropped_witness :
    is_image_file "empty.png" = true ∧
    convert_to_base64_b (some []) = "" ∧
    scan_directory [⟨["empty.png"], some []⟩] = ([], 1) :=
  ⟨by decide, rfl, (empty_file_dropped "empty.png" (some []) (by decide) rfl).2.2⟩

end Img2B64
